import Mathlib

/-!
# Verification of the valantis-job product-catalog front end

Shallow embedding of `src/App.tsx` (the repository's single source file):
the retrying HTTP client `fetchData`, the daily `X-Auth` key derivation
(`formatDate`, `apiKey`, including a full executable MD5), the chunking
helper `splitArray`, the request-body builders, and the three data effects
of the `App` component (the `get_fields` effect, the `productIds` /
`get_items` effect, and `getProductIds`), together with the main render
branch.  JavaScript numbers that matter here are modelled as `Nat`/`Int`
(with `JsNumber` adding `NaN` where `Number.parseInt` can produce it),
asynchronous fetches as oracle functions passed to the effects, and React
state as an explicit `AppState` record.
-/

set_option autoImplicit false

/-- Constant `MAX_ITEMS_PER_PAGE = 50` (App.tsx line 20). -/
def MAX_ITEMS_PER_PAGE : Nat := 50

/-- Constant `MAX_CONNECTIONS_RETRY = 3` (App.tsx line 21). -/
def MAX_CONNECTIONS_RETRY : Nat := 3

/-- A product row as returned by `get_items` (App.tsx lines 9-14).
`price` is kept as an integer: no claim depends on fractional prices. -/
structure Product where
  id : String
  brand : String
  price : Int
  product : String
deriving DecidableEq, Repr

/-! ## Dates and `formatDate` (App.tsx lines 23-28)

```js
function formatDate(date = new Date()) {
  const utcYear = date.getUTCFullYear()
  const utcMonth = String(date.getUTCMonth() + 1).padStart(2, '0')
  const utcDay = String(date.getUTCDate()).padStart(2, '0')
  return `${utcYear}${utcMonth}${utcDay}`
}
```

A JS `Date` is modelled by the three UTC accessors the function uses:
`getUTCFullYear` (full year), `getUTCMonth` (0-based month, 0..11) and
`getUTCDate` (day of month, 1..31). -/
structure JsDate where
  utcFullYear : Nat
  utcMonth : Nat
  utcDate : Nat
deriving DecidableEq, Repr

/-- The character of a single decimal digit (`0 ≤ n ≤ 9`). -/
def decDigitChar (n : Nat) : Char := Char.ofNat (48 + n)

/-- Digit recursion for `natToChars`, driven by structural fuel so the
kernel can evaluate it (`n + 1` units always suffice). -/
def natToCharsAux : Nat → Nat → List Char
  | 0, _ => []
  | fuel + 1, n =>
    if n < 10 then [decDigitChar n]
    else natToCharsAux fuel (n / 10) ++ [decDigitChar (n % 10)]

/-- Decimal representation of a natural number, most significant digit
first: the `String(n)` / template-literal coercion of a non-negative JS
integer. -/
def natToChars (n : Nat) : List Char := natToCharsAux (n + 1) n

def natToString (n : Nat) : String := String.mk (natToChars n)

/-- JS `s.padStart(2, '0')`. -/
def padStart2 (s : String) : String :=
  if s.length < 2 then String.mk (List.replicate (2 - s.length) '0') ++ s else s

/-- Function `formatDate` (App.tsx lines 23-28). -/
def formatDate (d : JsDate) : String :=
  natToString d.utcFullYear ++
    padStart2 (natToString (d.utcMonth + 1)) ++ padStart2 (natToString d.utcDate)

/-! ## MD5 (the `crypto-js/md5` call on App.tsx line 30)

A direct executable implementation of MD5 over byte lists, with 32-bit
words as `Nat` reduced `% 2 ^ 32`.  Little-endian words, the standard
64-entry sine table and per-round shift amounts, `0x80`-then-zeros
padding to 56 mod 64 and a 64-bit little-endian bit length.  The inputs
the app hashes (`Valantis_YYYYMMDD`) are ASCII, so the byte encoding of
a string is the list of its character codes. -/
def md5K : List Nat :=
  [0xd76aa478, 0xe8c7b756, 0x242070db, 0xc1bdceee,
   0xf57c0faf, 0x4787c62a, 0xa8304613, 0xfd469501,
   0x698098d8, 0x8b44f7af, 0xffff5bb1, 0x895cd7be,
   0x6b901122, 0xfd987193, 0xa679438e, 0x49b40821,
   0xf61e2562, 0xc040b340, 0x265e5a51, 0xe9b6c7aa,
   0xd62f105d, 0x02441453, 0xd8a1e681, 0xe7d3fbc8,
   0x21e1cde6, 0xc33707d6, 0xf4d50d87, 0x455a14ed,
   0xa9e3e905, 0xfcefa3f8, 0x676f02d9, 0x8d2a4c8a,
   0xfffa3942, 0x8771f681, 0x6d9d6122, 0xfde5380c,
   0xa4beea44, 0x4bdecfa9, 0xf6bb4b60, 0xbebfbc70,
   0x289b7ec6, 0xeaa127fa, 0xd4ef3085, 0x04881d05,
   0xd9d4d039, 0xe6db99e5, 0x1fa27cf8, 0xc4ac5665,
   0xf4292244, 0x432aff97, 0xab9423a7, 0xfc93a039,
   0x655b59c3, 0x8f0ccc92, 0xffeff47d, 0x85845dd1,
   0x6fa87e4f, 0xfe2ce6e0, 0xa3014314, 0x4e0811a1,
   0xf7537e82, 0xbd3af235, 0x2ad7d2bb, 0xeb86d391]

def md5S : List Nat :=
  [7, 12, 17, 22, 7, 12, 17, 22, 7, 12, 17, 22, 7, 12, 17, 22,
   5, 9, 14, 20, 5, 9, 14, 20, 5, 9, 14, 20, 5, 9, 14, 20,
   4, 11, 16, 23, 4, 11, 16, 23, 4, 11, 16, 23, 4, 11, 16, 23,
   6, 10, 15, 21, 6, 10, 15, 21, 6, 10, 15, 21, 6, 10, 15, 21]

/-- Left rotation of a 32-bit word (`x` is assumed `< 2 ^ 32`). -/
def rotl32 (x s : Nat) : Nat := ((x <<< s) ||| (x >>> (32 - s))) % 2 ^ 32

/-- Value of up to four bytes read little-endian. -/
def leWord (bytes : List Nat) : Nat := bytes.foldr (fun b acc => b + 256 * acc) 0

/-- The `count` little-endian bytes of `n`. -/
def toLEBytes : Nat → Nat → List Nat
  | _, 0 => []
  | n, c + 1 => n % 256 :: toLEBytes (n / 256) c

/-- One MD5 operation (step `i`, `0 ≤ i < 64`) on the running state. -/
def md5Step (M : List Nat) (st : Nat × Nat × Nat × Nat) (i : Nat) :
    Nat × Nat × Nat × Nat :=
  let (a, b, c, d) := st
  let mask := 0xffffffff
  let f :=
    if i < 16 then (b &&& c) ||| ((b ^^^ mask) &&& d)
    else if i < 32 then (d &&& b) ||| ((d ^^^ mask) &&& c)
    else if i < 48 then b ^^^ c ^^^ d
    else c ^^^ (b ||| (d ^^^ mask))
  let g :=
    if i < 16 then i
    else if i < 32 then (5 * i + 1) % 16
    else if i < 48 then (3 * i + 5) % 16
    else (7 * i) % 16
  let tmp := (f + a + md5K.getD i 0 + M.getD g 0) % 2 ^ 32
  (d, (b + rotl32 tmp (md5S.getD i 0)) % 2 ^ 32, b, c)

/-- Compression of one 64-byte block into the chaining state. -/
def md5Compress (st : Nat × Nat × Nat × Nat) (block : List Nat) :
    Nat × Nat × Nat × Nat :=
  let M := (List.range 16).map fun j => leWord ((block.drop (4 * j)).take 4)
  let (a0, b0, c0, d0) := st
  let (a, b, c, d) := (List.range 64).foldl (md5Step M) st
  ((a0 + a) % 2 ^ 32, (b0 + b) % 2 ^ 32, (c0 + c) % 2 ^ 32, (d0 + d) % 2 ^ 32)

/-- Fold the compression over consecutive 64-byte blocks (fuel-driven;
the padded message length is ample fuel). -/
def md5Loop : Nat → List Nat → Nat × Nat × Nat × Nat → Nat × Nat × Nat × Nat
  | 0, _, st => st
  | _ + 1, [], st => st
  | fuel + 1, bs@(_ :: _), st => md5Loop fuel (bs.drop 64) (md5Compress st (bs.take 64))

/-- MD5 padding: `0x80`, zeros to 56 mod 64, then the bit length as
eight little-endian bytes. -/
def md5Pad (msg : List Nat) : List Nat :=
  msg ++ 0x80 :: List.replicate ((119 - msg.length % 64) % 64) 0 ++
    toLEBytes ((msg.length * 8) % 2 ^ 64) 8

/-- The 16 digest bytes of a byte message. -/
def md5Bytes (msg : List Nat) : List Nat :=
  let padded := md5Pad msg
  let (a, b, c, d) :=
    md5Loop padded.length padded (0x67452301, 0xefcdab89, 0x98badcfe, 0x10325476)
  toLEBytes a 4 ++ toLEBytes b 4 ++ toLEBytes c 4 ++ toLEBytes d 4

def hexDigitChar (n : Nat) : Char :=
  if n < 10 then Char.ofNat (48 + n) else Char.ofNat (87 + n)

def byteToHexChars (b : Nat) : List Char := [hexDigitChar (b / 16), hexDigitChar (b % 16)]

/-- Byte encoding of the (ASCII) strings the app hashes. -/
def strBytes (s : String) : List Nat := s.toList.map Char.toNat

/-- The digest `md5(s).toString()`: the lowercase hex digest. -/
def md5hex (s : String) : String :=
  String.mk ((md5Bytes (strBytes s)).map byteToHexChars).flatten

/-- Module constant `apiKey` (App.tsx line 30), the value of
`md5` applied to the template `Valantis_` + `formatDate()`.  Evaluated once at module load, with `formatDate()`
applied to the date at load time, so `apiKey` is a function of the load
date only. -/
def apiKey (loadDate : JsDate) : String := md5hex ("Valantis_" ++ formatDate loadDate)

/-- The `X-Auth` header value carried by a request sent on wall-clock
date `requestDate` during a session whose module graph was evaluated on
`loadDate`.  The source computes `apiKey` once at module initialisation
(line 30) and `fetchData` reuses it for every request (line 39), so the
request date does not enter the value. -/
def xAuthSent (loadDate : JsDate) : JsDate → String := fun _requestDate => apiKey loadDate

/-! ## `splitArray` (App.tsx lines 61-67)

```js
function splitArray(arr, chunkSize = MAX_ITEMS_PER_PAGE) {
  const chunks = []
  for (let i = 0; i < arr.length; i += chunkSize) {
    chunks.push(arr.slice(i, i + chunkSize))
  }
  return chunks
}
```

The loop is embedded with an explicit fuel argument so that the Lean
function is total; `arr.length` units of fuel are enough for every
positive `chunkSize` (each pushed chunk consumes at least one element),
which is the regime of every call in the app (`chunkSize = 50`).
`arr.slice(i, i + chunkSize)` is `(arr.drop i).take chunkSize`. -/
def splitArrayLoop (arr : List String) (chunkSize : Nat) : Nat → Nat → List (List String)
  | 0, _ => []
  | fuel + 1, i =>
    if i < arr.length then
      (arr.drop i).take chunkSize :: splitArrayLoop arr chunkSize fuel (i + chunkSize)
    else
      []

/-- Function `splitArray` itself; the app always calls it with the default
`chunkSize = MAX_ITEMS_PER_PAGE`. -/
def splitArray (arr : List String) (chunkSize : Nat) : List (List String) :=
  splitArrayLoop arr chunkSize arr.length 0

/-! ## Deduplication

`Array.from(new Set(productIds))` (App.tsx line 100): a JS `Set` keeps
the first occurrence of each string, in insertion order. -/
def jsSetDedup (seen : List String) : List String → List String
  | [] => []
  | x :: xs =>
    if x ∈ seen then jsSetDedup seen xs
    else x :: jsSetDedup (x :: seen) xs

/-- The `result.filter` with the mutated `uniqueIds` set
(App.tsx lines 103-109): keep a product iff its `id` was not seen yet. -/
def dedupProducts (seen : List String) : List Product → List Product
  | [] => []
  | p :: ps =>
    if p.id ∈ seen then dedupProducts seen ps
    else p :: dedupProducts (p.id :: seen) ps

/-! ## `Number.parseInt` (used on App.tsx line 138)

A JS number that can be `NaN`, and ECMAScript `parseInt` with no radix
argument: skip leading whitespace, read an optional sign, treat a
`0x`/`0X` prefix as hexadecimal, otherwise read the longest prefix of
decimal digits; no digits means `NaN`, and everything after the digits
(in particular a fractional part) is ignored. -/
inductive JsNumber where
  | nan
  | int (n : Int)
deriving DecidableEq, Repr

def isDecDigit (c : Char) : Bool := 48 ≤ c.toNat && c.toNat ≤ 57

def isHexDigit (c : Char) : Bool :=
  isDecDigit c || (97 ≤ c.toNat && c.toNat ≤ 102) || (65 ≤ c.toNat && c.toNat ≤ 70)

def decDigitVal (c : Char) : Nat := c.toNat - 48

def hexDigitVal (c : Char) : Nat :=
  if isDecDigit c then c.toNat - 48
  else if 97 ≤ c.toNat then c.toNat - 87
  else c.toNat - 55

/-- White space skipped by `parseInt` (space, tab, LF, CR by code). -/
def isJsWhitespace (c : Char) : Bool :=
  c.toNat = 32 || c.toNat = 9 || c.toNat = 10 || c.toNat = 13

def skipWs : List Char → List Char
  | [] => []
  | c :: cs => if isJsWhitespace c then skipWs cs else c :: cs

/-- Value of a decimal digit string, most significant digit first. -/
def digitsVal (cs : List Char) : Nat := cs.foldl (fun acc c => 10 * acc + decDigitVal c) 0

def hexDigitsVal (cs : List Char) : Nat := cs.foldl (fun acc c => 16 * acc + hexDigitVal c) 0

def parseDec (sign : Int) (cs : List Char) : JsNumber :=
  let ds := cs.takeWhile isDecDigit
  if ds.isEmpty then .nan else .int (sign * (digitsVal ds : Int))

def parseHex (sign : Int) (cs : List Char) : JsNumber :=
  let ds := cs.takeWhile isHexDigit
  if ds.isEmpty then .nan else .int (sign * (hexDigitsVal ds : Int))

/-- The optional leading sign of `parseInt`. -/
def parseSign : List Char → Int × List Char
  | [] => (1, [])
  | c :: rest =>
    if c = '-' then (-1, rest)
    else if c = '+' then (1, rest)
    else (1, c :: rest)

/-- Radix selection of `parseInt` with no radix argument: a leading
`0x`/`0X` switches to hexadecimal, anything else is decimal. -/
def parseRadix (sign : Int) : List Char → JsNumber
  | a :: b :: rest =>
    if a = '0' && (b = 'x' || b = 'X') then parseHex sign rest
    else parseDec sign (a :: b :: rest)
  | cs => parseDec sign cs

def parseIntChars (cs0 : List Char) : JsNumber :=
  let signed := parseSign (skipWs cs0)
  parseRadix signed.1 signed.2

/-- JS `Number.parseInt(s)`. -/
def parseInt (s : String) : JsNumber := parseIntChars s.toList

/-! ## Request bodies and the HTTP layer (App.tsx lines 33-59)

A JSON-ish value type models the `RequestBody` objects the app builds
(`{[keys: string]: string | object}`), and `HttpRequest` the argument
of the `fetch` call inside `fetchData`. -/
inductive JsonValue where
  | str (s : String)
  | num (n : JsNumber)
  | arr (xs : List JsonValue)
  | obj (fields : List (String × JsonValue))

/-- A request body: the top-level JSON object passed to `fetchData`. -/
def RequestBody := List (String × JsonValue)

/-- Body `{"action": "get_fields"}` (App.tsx lines 85-87). -/
def getFieldsBody : RequestBody := [("action", .str "get_fields")]

/-- Body `{'action': 'get_items', 'params': {'ids': ...}}` (lines 98-101). -/
def getItemsBody (ids : List String) : RequestBody :=
  [("action", .str "get_items"), ("params", .obj [("ids", .arr (ids.map .str))])]

/-- Body `{'action': 'get_ids', 'params': {'offset': ..., 'limit': ...}}`
(lines 148-150). -/
def getIdsBody (offset limit : Nat) : RequestBody :=
  [("action", .str "get_ids"),
   ("params", .obj [("offset", .num (.int offset)), ("limit", .num (.int limit))])]

/-- Body `{"action": "filter", "params": {[filter]: ...}}` (lines 136-138). -/
def filterBody (field : String) (value : JsonValue) : RequestBody :=
  [("action", .str "filter"), ("params", .obj [(field, value)])]

/-- The `action` field of a body. -/
def bodyAction (b : RequestBody) : Option JsonValue := List.lookup "action" b

structure HttpRequest where
  url : String
  method : String
  headers : List (String × String)
  body : RequestBody

/-- The single fixed endpoint (App.tsx line 35). -/
def apiUrl : String := "https://api.valantis.store:41000/"

/-- The `fetch('https://api.valantis.store:41000/', {...})` call
(App.tsx lines 35-42): method, headers and JSON body. -/
def buildRequest (loadDate : JsDate) (body : RequestBody) : HttpRequest :=
  { url := apiUrl
    method := "POST"
    headers := [("Content-Type", "application/json"), ("X-Auth", apiKey loadDate)]
    body := body }

/-- A successfully parsed response: JSON with a `result` array. -/
structure FetchResponse (α : Type) where
  result : List α
deriving DecidableEq, Repr

/-- Outcome of one attempt of the `try` block of `fetchData`: either the
parsed JSON of a 2xx response, or a failure (a network error thrown by
`fetch`, or a non-`ok` status turned into a thrown `Error`). -/
inductive AttemptResult (α : Type) where
  | success (value : FetchResponse α)
  | failure
deriving DecidableEq

/-- Function `fetchData` (App.tsx lines 33-59): attempt the request; on failure
retry with `retryCount + 1` while `retryCount < MAX_CONNECTIONS_RETRY`,
otherwise resolve to the sentinel `{result: []}`.  `attempts k` is the
outcome of the attempt with `retryCount = k`; the second component
collects the HTTP requests actually sent, in order. -/
def fetchData {α : Type} (loadDate : JsDate) (body : RequestBody)
    (attempts : Nat → AttemptResult α) (retryCount : Nat) :
    FetchResponse α × List HttpRequest :=
  match attempts retryCount with
  | .success v => (v, [buildRequest loadDate body])
  | .failure =>
    if _h : retryCount < MAX_CONNECTIONS_RETRY then
      let rest := fetchData loadDate body attempts (retryCount + 1)
      (rest.1, buildRequest loadDate body :: rest.2)
    else
      (⟨[]⟩, [buildRequest loadDate body])
termination_by MAX_CONNECTIONS_RETRY + 1 - retryCount
decreasing_by simp only [MAX_CONNECTIONS_RETRY] at *; omega

/-! ## The `App` component state and effects (App.tsx lines 69-167)

React state is collected in one record (the `useState` hooks of lines
70-79 plus the fetched `filters`); each effect is a function from the
pre-state and a fetch oracle (the response the pending `fetchData`
promise resolves to) to the post-state and the list of request bodies
handed to `fetchData`. -/
structure AppState where
  currentPage : Nat
  isLastPage : Bool
  isLoading : Bool
  productIds : List String
  products : List Product
  arrayOfChunks : List (List String)
  isSearch : Bool
  filters : List String
deriving DecidableEq, Repr

/-- The `useState` initial values (lines 70-79). -/
def initialState : AppState :=
  { currentPage := 0, isLastPage := true, isLoading := false, productIds := [],
    products := [], arrayOfChunks := [], isSearch := false, filters := [] }

/-- The mount effect fetching `get_fields` (lines 84-88). -/
def fieldsEffect (s : AppState) (fetch : RequestBody → FetchResponse String) :
    AppState × List RequestBody :=
  ({ s with filters := (fetch getFieldsBody).result }, [getFieldsBody])

/-- The `[productIds]` effect (lines 90-114): with an empty id page,
reset and return without fetching; otherwise `get_items` on the
deduplicated ids, store the result deduplicated by `id`, and set
`isLastPage` from the raw (pre-deduplication) result length. -/
def productIdsEffect (s : AppState) (fetch : RequestBody → FetchResponse Product) :
    AppState × List RequestBody :=
  if s.productIds.length = 0 then
    ({ s with isLoading := false, isLastPage := true, products := [] }, [])
  else
    let body := getItemsBody (jsSetDedup [] s.productIds)
    let result := (fetch body).result
    ({ s with
        products := dedupProducts [] result
        isLastPage := decide (result.length < MAX_ITEMS_PER_PAGE)
        isLoading := false }, [body])

/-- The values `getProductIds` reads through refs (lines 130-133):
the search input's value and `filterRef.current`. -/
structure SearchCtx where
  searchValue : String
  filterField : String
deriving DecidableEq, Repr

/-- Function `getProductIds` (lines 128-154).  With a non-empty search value it
either runs the `filter` request (fresh search, non-empty filter field
— the empty field returns early, before `setIsSearch(false)`, leaving
`isLoading` true), or re-pages through the cached `arrayOfChunks`;
with an empty search value it runs `get_ids` with the page offset. -/
def getProductIds (ctx : SearchCtx) (s0 : AppState)
    (fetch : RequestBody → FetchResponse String) : AppState × List RequestBody :=
  let s := { s0 with isLoading := true }
  if ctx.searchValue ≠ "" then
    if s.isSearch then
      if ctx.filterField = "" then (s, [])
      else
        let body := filterBody ctx.filterField
          (if ctx.filterField = "price" then .num (parseInt ctx.searchValue)
           else .str ctx.searchValue)
        let chunks := splitArray (fetch body).result MAX_ITEMS_PER_PAGE
        ({ s with arrayOfChunks := chunks, productIds := chunks.getD 0 [],
                  isSearch := false }, [body])
    else
      ({ s with productIds := s.arrayOfChunks.getD s.currentPage [],
                isSearch := false }, [])
  else
    let body := getIdsBody (s.currentPage * MAX_ITEMS_PER_PAGE) MAX_ITEMS_PER_PAGE
    ({ s with productIds := (fetch body).result, isSearch := false }, [body])

/-! ## Rendering (App.tsx lines 211-255) -/

inductive View where
  | progress
  | message (text : String)
  | table (rows : List Product)
deriving Repr

/-- The main content branch (lines 228-232): a progress bar while
loading, the "no items found" message for an empty product list, and
the product table otherwise.  There is no error branch. -/
def renderMain (isLoading : Bool) (products : List Product) : View :=
  if isLoading then .progress
  else if products.length = 0 then .message "Товаров не найдено"
  else .table products

/-- Flag `disabled={isLoading || isLastPage}` of the next-page button
(line 221). -/
def nextPageDisabled (s : AppState) : Bool := s.isLoading || s.isLastPage

/-! # Lemmas -/

/-! ## `splitArray` -/

lemma splitArrayLoop_flatten (arr : List String) (c : Nat) (hc : 0 < c) :
    ∀ fuel i, arr.length - i ≤ fuel →
      (splitArrayLoop arr c fuel i).flatten = arr.drop i := by
  intro fuel
  induction fuel with
  | zero =>
    intro i hi
    simp only [splitArrayLoop, List.flatten_nil]
    exact (List.drop_eq_nil_of_le (by omega)).symm
  | succ f ih =>
    intro i hi
    by_cases h : i < arr.length
    · simp only [splitArrayLoop, if_pos h, List.flatten_cons]
      rw [ih (i + c) (by omega), List.drop_take_append_drop]
    · simp only [splitArrayLoop, if_neg h, List.flatten_nil]
      exact (List.drop_eq_nil_of_le (by omega)).symm

lemma splitArrayLoop_ne_nil (arr : List String) (c : Nat) :
    ∀ fuel i, splitArrayLoop arr c fuel i ≠ [] → i < arr.length := by
  intro fuel i h
  cases fuel with
  | zero => simp [splitArrayLoop] at h
  | succ f =>
    by_cases hi : i < arr.length
    · exact hi
    · simp [splitArrayLoop, hi] at h

lemma splitArrayLoop_sizes (arr : List String) (c : Nat) (hc : 0 < c) :
    ∀ fuel i,
      (∀ ch ∈ (splitArrayLoop arr c fuel i).dropLast, ch.length = c) ∧
      (∀ ch ∈ splitArrayLoop arr c fuel i, 1 ≤ ch.length ∧ ch.length ≤ c) := by
  intro fuel
  induction fuel with
  | zero => intro i; simp [splitArrayLoop]
  | succ f ih =>
    intro i
    by_cases h : i < arr.length
    · simp only [splitArrayLoop, if_pos h]
      have hlen : ((arr.drop i).take c).length = min c (arr.length - i) := by
        simp [List.length_take, List.length_drop]
      constructor
      · intro ch hch
        cases hrest : splitArrayLoop arr c f (i + c) with
        | nil => rw [hrest] at hch; simp at hch
        | cons r rs =>
          rw [hrest] at hch
          rw [List.dropLast_cons₂] at hch
          rcases List.mem_cons.mp hch with hch | hch
          · subst hch
            have hic : i + c < arr.length :=
              splitArrayLoop_ne_nil arr c f (i + c) (by rw [hrest]; simp)
            rw [hlen]; omega
          · have := (ih (i + c)).1
            rw [hrest] at this
            exact this ch hch
      · intro ch hch
        rcases List.mem_cons.mp hch with hch | hch
        · subst hch; rw [hlen]; constructor <;> omega
        · exact (ih (i + c)).2 ch hch
    · simp [splitArrayLoop, if_neg h]

/-! ## Deduplication lemmas -/

lemma jsSetDedup_not_mem (seen l : List String) :
    ∀ x ∈ jsSetDedup seen l, x ∉ seen := by
  induction l generalizing seen with
  | nil => simp [jsSetDedup]
  | cons y ys ih =>
    intro x hx
    simp only [jsSetDedup] at hx
    by_cases h : y ∈ seen
    · rw [if_pos h] at hx; exact ih seen x hx
    · rw [if_neg h] at hx
      rcases List.mem_cons.mp hx with rfl | hx
      · exact h
      · intro hs; exact ih (y :: seen) x hx (List.mem_cons_of_mem _ hs)

lemma jsSetDedup_nodup (seen l : List String) : (jsSetDedup seen l).Nodup := by
  induction l generalizing seen with
  | nil => simp [jsSetDedup]
  | cons y ys ih =>
    simp only [jsSetDedup]
    by_cases h : y ∈ seen
    · rw [if_pos h]; exact ih seen
    · rw [if_neg h]
      refine List.nodup_cons.mpr ⟨?_, ih (y :: seen)⟩
      intro hmem
      exact jsSetDedup_not_mem (y :: seen) ys y hmem (List.mem_cons_self _ _)

lemma jsSetDedup_sublist (seen l : List String) : List.Sublist (jsSetDedup seen l) l := by
  induction l generalizing seen with
  | nil => simp [jsSetDedup]
  | cons y ys ih =>
    simp only [jsSetDedup]
    by_cases h : y ∈ seen
    · rw [if_pos h]; exact (ih seen).cons y
    · rw [if_neg h]; exact (ih (y :: seen)).cons₂ y

lemma dedupProducts_sublist (seen : List String) (l : List Product) :
    List.Sublist (dedupProducts seen l) l := by
  induction l generalizing seen with
  | nil => simp [dedupProducts]
  | cons p ps ih =>
    simp only [dedupProducts]
    by_cases h : p.id ∈ seen
    · rw [if_pos h]; exact (ih seen).cons p
    · rw [if_neg h]; exact (ih (p.id :: seen)).cons₂ p

lemma dedupProducts_not_mem (seen : List String) (l : List Product) :
    ∀ q ∈ dedupProducts seen l, q.id ∉ seen := by
  induction l generalizing seen with
  | nil => simp [dedupProducts]
  | cons p ps ih =>
    intro q hq
    simp only [dedupProducts] at hq
    by_cases h : p.id ∈ seen
    · rw [if_pos h] at hq; exact ih seen q hq
    · rw [if_neg h] at hq
      rcases List.mem_cons.mp hq with rfl | hq
      · exact h
      · intro hs; exact ih (p.id :: seen) q hq (List.mem_cons_of_mem _ hs)

lemma dedupProducts_ids_nodup (seen : List String) (l : List Product) :
    ((dedupProducts seen l).map Product.id).Nodup := by
  induction l generalizing seen with
  | nil => simp [dedupProducts]
  | cons p ps ih =>
    simp only [dedupProducts]
    by_cases h : p.id ∈ seen
    · rw [if_pos h]; exact ih seen
    · rw [if_neg h]
      simp only [List.map_cons, List.nodup_cons]
      refine ⟨?_, ih (p.id :: seen)⟩
      intro hmem
      rcases List.mem_map.mp hmem with ⟨q, hq, hqid⟩
      apply dedupProducts_not_mem (p.id :: seen) ps q hq
      rw [hqid]
      exact List.mem_cons_self _ _

lemma dedupProducts_find (seen : List String) (l : List Product) :
    ∀ q ∈ dedupProducts seen l, l.find? (fun p => p.id == q.id) = some q := by
  induction l generalizing seen with
  | nil => simp [dedupProducts]
  | cons p ps ih =>
    intro q hq
    simp only [dedupProducts] at hq
    by_cases h : p.id ∈ seen
    · rw [if_pos h] at hq
      have hqs : q.id ∉ seen := dedupProducts_not_mem seen ps q hq
      have hne : p.id ≠ q.id := fun he => hqs (he ▸ h)
      rw [List.find?_cons_of_neg _ (by simp [hne])]
      exact ih seen q hq
    · rw [if_neg h] at hq
      rcases List.mem_cons.mp hq with rfl | hq
      · rw [List.find?_cons_of_pos _ (by simp)]
      · have hqs : q.id ∉ p.id :: seen := dedupProducts_not_mem _ _ q hq
        have hne : p.id ≠ q.id := fun he => hqs (he ▸ List.mem_cons_self _ _)
        rw [List.find?_cons_of_neg _ (by simp [hne])]
        exact ih (p.id :: seen) q hq

lemma dedupProducts_covers (seen : List String) (l : List Product) :
    ∀ p ∈ l, p.id ∉ seen → ∃ q ∈ dedupProducts seen l, q.id = p.id := by
  induction l generalizing seen with
  | nil => simp
  | cons x xs ih =>
    intro p hp hps
    simp only [dedupProducts]
    by_cases h : x.id ∈ seen
    · rw [if_pos h]
      rcases List.mem_cons.mp hp with rfl | hp
      · exact absurd h hps
      · exact ih seen p hp hps
    · rw [if_neg h]
      rcases List.mem_cons.mp hp with rfl | hp
      · exact ⟨p, List.mem_cons_self _ _, rfl⟩
      · by_cases hpx : p.id = x.id
        · exact ⟨x, List.mem_cons_self _ _, hpx.symm⟩
        · obtain ⟨q, hq, hqid⟩ := ih (x.id :: seen) p hp (by simp [hpx, hps])
          exact ⟨q, List.mem_cons_of_mem _ hq, hqid⟩

/-! ## `fetchData` lemmas -/

lemma fetchData_length_le {α : Type} (ld : JsDate) (body : RequestBody)
    (attempts : Nat → AttemptResult α) :
    ∀ n rc, rc ≤ MAX_CONNECTIONS_RETRY → MAX_CONNECTIONS_RETRY + 1 - rc ≤ n →
      (fetchData ld body attempts rc).2.length ≤ MAX_CONNECTIONS_RETRY + 1 - rc := by
  simp only [MAX_CONNECTIONS_RETRY]
  intro n
  induction n with
  | zero => intro rc h1 h2; omega
  | succ n ih =>
    intro rc h1 h2
    rw [fetchData.eq_def]
    cases hA : attempts rc with
    | success v => simp; omega
    | failure =>
      simp only [MAX_CONNECTIONS_RETRY]
      by_cases hrc : rc < 3
      · rw [dif_pos hrc]
        simp only [List.length_cons]
        have := ih (rc + 1) (by omega) (by omega)
        omega
      · rw [dif_neg hrc]
        simp only [List.length_singleton]
        omega

lemma fetchData_all_fail {α : Type} (ld : JsDate) (body : RequestBody)
    (attempts : Nat → AttemptResult α) :
    ∀ n rc, rc ≤ MAX_CONNECTIONS_RETRY → MAX_CONNECTIONS_RETRY + 1 - rc ≤ n →
      (∀ k, rc ≤ k → k ≤ MAX_CONNECTIONS_RETRY → attempts k = .failure) →
      fetchData ld body attempts rc =
        (⟨[]⟩, List.replicate (MAX_CONNECTIONS_RETRY + 1 - rc) (buildRequest ld body)) := by
  simp only [MAX_CONNECTIONS_RETRY]
  intro n
  induction n with
  | zero => intro rc h1 h2; omega
  | succ n ih =>
    intro rc h1 h2 hfail
    rw [fetchData.eq_def, hfail rc (Nat.le_refl rc) h1]
    simp only [MAX_CONNECTIONS_RETRY]
    by_cases hrc : rc < 3
    · rw [dif_pos hrc, ih (rc + 1) (by omega) (by omega)
        (fun k hk1 hk2 => hfail k (by omega) hk2)]
      rw [show 3 + 1 - rc = (3 + 1 - (rc + 1)) + 1 by omega, List.replicate_succ]
    · rw [dif_neg hrc]
      rw [show 3 + 1 - rc = 1 by omega]
      simp

lemma fetchData_first_success {α : Type} (ld : JsDate) (body : RequestBody)
    (attempts : Nat → AttemptResult α) :
    ∀ n rc k v, rc ≤ k → k ≤ MAX_CONNECTIONS_RETRY →
      (∀ j, rc ≤ j → j < k → attempts j = .failure) → attempts k = .success v →
      MAX_CONNECTIONS_RETRY + 1 - rc ≤ n →
      (fetchData ld body attempts rc).1 = v ∧
      (fetchData ld body attempts rc).2.length = k - rc + 1 := by
  simp only [MAX_CONNECTIONS_RETRY]
  intro n
  induction n with
  | zero => intro rc k v h1 h2 _ _ h5; omega
  | succ n ih =>
    intro rc k v h1 h2 hfail hsucc h5
    by_cases hrk : rc = k
    · subst hrk
      rw [fetchData.eq_def, hsucc]
      simp
    · have hlt : rc < k := by omega
      rw [fetchData.eq_def, hfail rc (Nat.le_refl rc) hlt]
      simp only [MAX_CONNECTIONS_RETRY]
      have hrc : rc < 3 := by omega
      rw [dif_pos hrc]
      obtain ⟨ih1, ih2⟩ := ih (rc + 1) k v (by omega) h2
        (fun j hj1 hj2 => hfail j (by omega) hj2) hsucc (by omega)
      refine ⟨ih1, ?_⟩
      simp only [List.length_cons, ih2]
      omega

lemma fetchData_resolves {α : Type} (ld : JsDate) (body : RequestBody)
    (attempts : Nat → AttemptResult α) :
    ∀ n rc, rc ≤ MAX_CONNECTIONS_RETRY → MAX_CONNECTIONS_RETRY + 1 - rc ≤ n →
      (fetchData ld body attempts rc).1 = ⟨[]⟩ ∨
      ∃ k, rc ≤ k ∧ k ≤ MAX_CONNECTIONS_RETRY ∧
        attempts k = .success ((fetchData ld body attempts rc).1) := by
  simp only [MAX_CONNECTIONS_RETRY]
  intro n
  induction n with
  | zero => intro rc h1 h2; omega
  | succ n ih =>
    intro rc h1 h2
    cases hA : attempts rc with
    | success v =>
      right
      refine ⟨rc, Nat.le_refl rc, h1, ?_⟩
      rw [fetchData.eq_def, hA]
    | failure =>
      have hval : (fetchData ld body attempts rc).1 =
          if rc < 3 then (fetchData ld body attempts (rc + 1)).1 else ⟨[]⟩ := by
        rw [fetchData.eq_def, hA]
        simp only [MAX_CONNECTIONS_RETRY]
        by_cases hrc : rc < 3
        · rw [dif_pos hrc, if_pos hrc]
        · rw [dif_neg hrc, if_neg hrc]
      by_cases hrc : rc < 3
      · rw [hval, if_pos hrc]
        rcases ih (rc + 1) (by omega) (by omega) with h | ⟨k, hk1, hk2, hk3⟩
        · exact Or.inl h
        · exact Or.inr ⟨k, by omega, hk2, hk3⟩
      · rw [hval, if_neg hrc]
        exact Or.inl rfl

lemma fetchData_sends {α : Type} (ld : JsDate) (body : RequestBody)
    (attempts : Nat → AttemptResult α) :
    ∀ n rc, MAX_CONNECTIONS_RETRY + 1 - rc ≤ n →
      ∀ req ∈ (fetchData ld body attempts rc).2, req = buildRequest ld body := by
  simp only [MAX_CONNECTIONS_RETRY]
  intro n
  induction n with
  | zero =>
    intro rc h2 req hreq
    rw [fetchData.eq_def] at hreq
    cases hA : attempts rc with
    | success v => rw [hA] at hreq; simp at hreq; exact hreq
    | failure =>
      rw [hA] at hreq
      simp only [MAX_CONNECTIONS_RETRY] at hreq
      rw [dif_neg (by omega : ¬ rc < 3)] at hreq
      simp at hreq; exact hreq
  | succ n ih =>
    intro rc h2 req hreq
    rw [fetchData.eq_def] at hreq
    cases hA : attempts rc with
    | success v => rw [hA] at hreq; simp at hreq; exact hreq
    | failure =>
      rw [hA] at hreq
      simp only [MAX_CONNECTIONS_RETRY] at hreq
      by_cases hrc : rc < 3
      · rw [dif_pos hrc] at hreq
        simp only [List.mem_cons] at hreq
        rcases hreq with rfl | hreq
        · rfl
        · exact ih (rc + 1) (by omega) req hreq
      · rw [dif_neg hrc] at hreq
        simp at hreq; exact hreq

/-! ## Decimal formatting lemmas (`formatDate`) -/

lemma decDigitVal_decDigitChar (n : Nat) (h : n < 10) :
    decDigitVal (decDigitChar n) = n := by
  interval_cases n <;> rfl

lemma digitsVal_concat (xs : List Char) (c : Char) :
    digitsVal (xs ++ [c]) = 10 * digitsVal xs + decDigitVal c := by
  simp [digitsVal, List.foldl_append]

lemma digitsVal_natToCharsAux :
    ∀ fuel n, n < 10 ^ fuel → digitsVal (natToCharsAux fuel n) = n := by
  intro fuel
  induction fuel with
  | zero =>
    intro n h
    simp only [pow_zero, Nat.lt_one_iff] at h
    simp [natToCharsAux, digitsVal, h]
  | succ fuel ih =>
    intro n h
    rw [natToCharsAux]
    by_cases h10 : n < 10
    · rw [if_pos h10]
      simp [digitsVal, decDigitVal_decDigitChar n h10]
    · have hdiv : n / 10 < 10 ^ fuel := by
        apply Nat.div_lt_of_lt_mul
        rw [← pow_succ']
        exact h
      rw [if_neg h10, digitsVal_concat, ih (n / 10) hdiv,
        decDigitVal_decDigitChar (n % 10) (by omega)]
      omega

lemma natToChars_fuel (n : Nat) : n < 10 ^ (n + 1) :=
  Nat.lt_of_lt_of_le (Nat.lt_pow_self (by omega) n)
    (Nat.pow_le_pow_right (by omega) (by omega))

lemma digitsVal_natToChars (n : Nat) : digitsVal (natToChars n) = n :=
  digitsVal_natToCharsAux (n + 1) n (natToChars_fuel n)

lemma digitsVal_replicate_zero (k : Nat) (cs : List Char) :
    digitsVal (List.replicate k '0' ++ cs) = digitsVal cs := by
  induction k with
  | zero => simp
  | succ k ih =>
    rw [List.replicate_succ, List.cons_append]
    show List.foldl _ (10 * 0 + decDigitVal '0') _ = _
    exact ih

lemma natToChars_ne_nil (n : Nat) : natToChars n ≠ [] := by
  rw [natToChars, natToCharsAux]
  by_cases h : n < 10
  · rw [if_pos h]; simp
  · rw [if_neg h]; simp

lemma natToChars_length_le_two (n : Nat) (h : n < 100) :
    (natToChars n).length ≤ 2 := by
  rw [natToChars, natToCharsAux]
  by_cases h10 : n < 10
  · rw [if_pos h10]; simp
  · rw [if_neg h10]
    obtain ⟨m, rfl⟩ : ∃ m, n = m + 1 := ⟨n - 1, by omega⟩
    rw [natToCharsAux, if_pos (show (m + 1) / 10 < 10 by omega)]
    simp

lemma padStart2_data (s : String) :
    (padStart2 s).data = List.replicate (2 - s.length) '0' ++ s.data := by
  rw [padStart2]
  by_cases h : s.length < 2
  · rw [if_pos h, String.data_append]
  · rw [if_neg h, show 2 - s.length = 0 by omega]
    simp

lemma padStart2_length (s : String) (h : s.length ≤ 2) :
    (padStart2 s).length = 2 := by
  have : s.length = s.data.length := rfl
  have hd := padStart2_data s
  have : (padStart2 s).length = (padStart2 s).data.length := rfl
  rw [this, hd]
  simp only [List.length_append, List.length_replicate]
  omega

lemma digitsVal_padStart2_natToString (n : Nat) :
    digitsVal (padStart2 (natToString n)).data = n := by
  rw [padStart2_data]
  show digitsVal (List.replicate _ '0' ++ natToChars n) = n
  rw [digitsVal_replicate_zero, digitsVal_natToChars]

lemma formatDate_data (d : JsDate) :
    (formatDate d).data =
      natToChars d.utcFullYear ++
        ((padStart2 (natToString (d.utcMonth + 1))).data ++
          (padStart2 (natToString d.utcDate)).data) := by
  show (natToString d.utcFullYear ++ _ ++ _).data = _
  rw [String.data_append, String.data_append, List.append_assoc]
  rfl

lemma formatDate_inj (d1 d2 : JsDate)
    (h1m : d1.utcMonth ≤ 11) (h1d : d1.utcDate ≤ 31)
    (h2m : d2.utcMonth ≤ 11) (h2d : d2.utcDate ≤ 31)
    (h : formatDate d1 = formatDate d2) : d1 = d2 := by
  have hdata : (formatDate d1).data = (formatDate d2).data := by rw [h]
  rw [formatDate_data, formatDate_data] at hdata
  have hm1 : (padStart2 (natToString (d1.utcMonth + 1))).data.length = 2 := by
    have := padStart2_length (natToString (d1.utcMonth + 1))
      (natToChars_length_le_two (d1.utcMonth + 1) (by omega))
    exact this
  have hm2 : (padStart2 (natToString (d2.utcMonth + 1))).data.length = 2 := by
    exact padStart2_length _ (natToChars_length_le_two (d2.utcMonth + 1) (by omega))
  have hd1 : (padStart2 (natToString d1.utcDate)).data.length = 2 :=
    padStart2_length _ (natToChars_length_le_two d1.utcDate (by omega))
  have hd2 : (padStart2 (natToString d2.utcDate)).data.length = 2 :=
    padStart2_length _ (natToChars_length_le_two d2.utcDate (by omega))
  obtain ⟨hy, hmd⟩ := List.append_inj' hdata (by
    simp only [List.length_append, hm1, hm2, hd1, hd2])
  obtain ⟨hm, hd⟩ := List.append_inj hmd (by rw [hm1, hm2])
  have hyv : d1.utcFullYear = d2.utcFullYear := by
    have := congrArg digitsVal hy
    rwa [digitsVal_natToChars, digitsVal_natToChars] at this
  have hmv : d1.utcMonth = d2.utcMonth := by
    have := congrArg digitsVal hm
    rw [digitsVal_padStart2_natToString, digitsVal_padStart2_natToString] at this
    omega
  have hdv : d1.utcDate = d2.utcDate := by
    have := congrArg digitsVal hd
    rwa [digitsVal_padStart2_natToString, digitsVal_padStart2_natToString] at this
  cases d1; cases d2
  simp_all

/-! ## `parseInt` lemmas -/

lemma digit_facts (c : Char) (h : isDecDigit c = true) :
    isJsWhitespace c = false ∧ c ≠ '-' ∧ c ≠ '+' ∧ c ≠ 'x' ∧ c ≠ 'X' := by
  refine ⟨?_, ?_, ?_, ?_, ?_⟩
  · have hv : 48 ≤ c.toNat ∧ c.toNat ≤ 57 := by
      simpa [isDecDigit] using h
    simp only [isJsWhitespace, Bool.or_eq_false_iff, decide_eq_false_iff_not]
    omega
  · rintro rfl; exact absurd h (by decide)
  · rintro rfl; exact absurd h (by decide)
  · rintro rfl; exact absurd h (by decide)
  · rintro rfl; exact absurd h (by decide)

lemma takeWhile_append_stop (p : Char → Bool) (ds : List Char) (x : Char)
    (r : List Char) (hall : ∀ c ∈ ds, p c = true) (hx : p x = false) :
    (ds ++ x :: r).takeWhile p = ds := by
  induction ds with
  | nil => simp [List.takeWhile_cons, hx]
  | cons d ds ih =>
    simp only [List.cons_append, List.takeWhile_cons,
      hall d (List.mem_cons_self _ _), if_true]
    rw [ih (fun c hc => hall c (List.mem_cons_of_mem _ hc))]

lemma parseDec_digits_dot (sign : Int) (ds rest : List Char) (hne : ds ≠ [])
    (hall : ∀ c ∈ ds, isDecDigit c = true) :
    parseDec sign (ds ++ '.' :: rest) = .int (sign * digitsVal ds) := by
  simp only [parseDec]
  rw [takeWhile_append_stop isDecDigit ds '.' rest hall (by decide)]
  rw [if_neg (by simpa [List.isEmpty_iff] using hne)]

lemma parseRadix_digits_dot (sign : Int) (ds rest : List Char) (hne : ds ≠ [])
    (hall : ∀ c ∈ ds, isDecDigit c = true) :
    parseRadix sign (ds ++ '.' :: rest) = .int (sign * digitsVal ds) := by
  obtain ⟨d, ds', rfl⟩ := List.exists_cons_of_ne_nil hne
  cases ds' with
  | nil =>
    simp only [List.cons_append, List.nil_append, parseRadix]
    rw [if_neg (by simp)]
    exact parseDec_digits_dot sign [d] rest (by simp) hall
  | cons e ds'' =>
    have he := hall e (by simp)
    obtain ⟨_, _, _, hex, heX⟩ := digit_facts e he
    simp only [List.cons_append, parseRadix]
    rw [if_neg (by simp [hex, heX])]
    exact parseDec_digits_dot sign (d :: e :: ds'') rest (by simp) hall

lemma parseIntChars_digits_dot (ds rest : List Char) (hne : ds ≠ [])
    (hall : ∀ c ∈ ds, isDecDigit c = true) :
    parseIntChars (ds ++ '.' :: rest) = .int (digitsVal ds) := by
  obtain ⟨d, ds', rfl⟩ := List.exists_cons_of_ne_nil hne
  have hd := hall d (List.mem_cons_self _ _)
  obtain ⟨hws, hminus, hplus, _, _⟩ := digit_facts d hd
  simp only [parseIntChars, List.cons_append]
  rw [show skipWs (d :: (ds' ++ '.' :: rest)) = d :: (ds' ++ '.' :: rest) by
    simp [skipWs, hws]]
  rw [show parseSign (d :: (ds' ++ '.' :: rest)) = (1, d :: (ds' ++ '.' :: rest)) by
    simp [parseSign, hminus, hplus]]
  have := parseRadix_digits_dot 1 (d :: ds') rest (by simp) hall
  simp only [List.cons_append] at this
  rw [this]
  simp

lemma parseIntChars_neg_digits_dot (ds rest : List Char) (hne : ds ≠ [])
    (hall : ∀ c ∈ ds, isDecDigit c = true) :
    parseIntChars ('-' :: (ds ++ '.' :: rest)) = .int (-(digitsVal ds : Int)) := by
  simp only [parseIntChars]
  rw [show skipWs ('-' :: (ds ++ '.' :: rest)) = '-' :: (ds ++ '.' :: rest) by
    simp [skipWs, isJsWhitespace]]
  rw [show parseSign ('-' :: (ds ++ '.' :: rest)) = (-1, ds ++ '.' :: rest) by
    simp [parseSign]]
  have := parseRadix_digits_dot (-1) ds rest hne hall
  rw [this]
  simp

lemma parseIntChars_nan (cs : List Char)
    (h : ∀ c ∈ cs, isDecDigit c = false ∧ isJsWhitespace c = false ∧
      c ≠ '-' ∧ c ≠ '+') :
    parseIntChars cs = .nan := by
  cases cs with
  | nil => rfl
  | cons c rest =>
    obtain ⟨hd, hws, hm, hp⟩ := h c (List.mem_cons_self _ _)
    have hc0 : c ≠ '0' := by rintro rfl; exact absurd hd (by decide)
    simp only [parseIntChars]
    rw [show skipWs (c :: rest) = c :: rest by simp [skipWs, hws]]
    rw [show parseSign (c :: rest) = (1, c :: rest) by simp [parseSign, hm, hp]]
    cases rest with
    | nil => simp [parseRadix, parseDec, List.takeWhile_cons, hd]
    | cons b rest' =>
      simp only [parseRadix]
      rw [if_neg (by simp [hc0])]
      simp [parseDec, List.takeWhile_cons, hd]

/-! ## MD5 validation against the RFC 1321 test vectors -/

lemma md5hex_rfc_empty : md5hex "" = "d41d8cd98f00b204e9800998ecf8427e" := by decide

lemma md5hex_rfc_a : md5hex "a" = "0cc175b9c0f1b6a831c399e269772661" := by decide

lemma md5hex_rfc_abc : md5hex "abc" = "900150983cd24fb0d6963f7d28e17f72" := by decide

lemma md5hex_rfc_message_digest :
    md5hex "message digest" = "f96b697d7cb7938d525a2f31aaf161d0" := by decide

/-! # Claims -/

/-- C1: for every request body, `fetchData` always resolves and never
rejects (the embedding is a total function whose value is either a
successful attempt's response or the sentinel); on any failure it
retries up to `MAX_CONNECTIONS_RETRY = 3` (so at most 4 total attempts,
and exactly 4 when everything fails), and once the cap is exhausted it
resolves to the empty-result sentinel `{result: []}`. -/
theorem c1_fetchData_retries {α : Type} (loadDate : JsDate) (body : RequestBody)
    (attempts : Nat → AttemptResult α) :
    ((∀ k, k ≤ MAX_CONNECTIONS_RETRY → attempts k = .failure) →
      (fetchData loadDate body attempts 0).1 = ⟨[]⟩ ∧
      (fetchData loadDate body attempts 0).2.length = MAX_CONNECTIONS_RETRY + 1) ∧
    (∀ k v, k ≤ MAX_CONNECTIONS_RETRY → (∀ j, j < k → attempts j = .failure) →
      attempts k = .success v → (fetchData loadDate body attempts 0).1 = v) ∧
    (fetchData loadDate body attempts 0).2.length ≤ MAX_CONNECTIONS_RETRY + 1 ∧
    ((fetchData loadDate body attempts 0).1 = ⟨[]⟩ ∨
      ∃ k, k ≤ MAX_CONNECTIONS_RETRY ∧
        attempts k = .success ((fetchData loadDate body attempts 0).1)) := by
  refine ⟨?_, ?_, ?_, ?_⟩
  · intro hfail
    rw [fetchData_all_fail loadDate body attempts (MAX_CONNECTIONS_RETRY + 1) 0
      (by decide) (by decide) (fun k _ hk2 => hfail k hk2)]
    refine ⟨rfl, ?_⟩
    simp
  · intro k v hk hfail hsucc
    exact (fetchData_first_success loadDate body attempts (MAX_CONNECTIONS_RETRY + 1)
      0 k v (Nat.zero_le k) hk (fun j _ hj => hfail j hj) hsucc (by decide)).1
  · exact fetchData_length_le loadDate body attempts (MAX_CONNECTIONS_RETRY + 1) 0
      (by decide) (by decide)
  · rcases fetchData_resolves loadDate body attempts (MAX_CONNECTIONS_RETRY + 1) 0
      (by decide) (by decide) with h | ⟨k, _, hk2, hk3⟩
    · exact Or.inl h
    · exact Or.inr ⟨k, hk2, hk3⟩

/-- Witness for C1 at a concrete all-failing attempt sequence. -/
theorem c1_fetchData_retries_witness :
    (fetchData ⟨2024, 1, 1⟩ getFieldsBody
      (fun _ => (AttemptResult.failure : AttemptResult String)) 0).1 = ⟨[]⟩ ∧
    (fetchData ⟨2024, 1, 1⟩ getFieldsBody
      (fun _ => (AttemptResult.failure : AttemptResult String)) 0).2.length =
      MAX_CONNECTIONS_RETRY + 1 :=
  (c1_fetchData_retries ⟨2024, 1, 1⟩ getFieldsBody (fun _ => .failure)).1
    (fun _ _ => rfl)

/-- C3: for every array and every positive chunk size, `splitArray`
returns contiguous groups in order whose concatenation is the input;
every group except possibly the last has exactly `chunkSize` elements,
and every group (in particular the last one, for non-empty input) has
between 1 and `chunkSize` elements. -/
theorem c3_splitArray_chunking (arr : List String) (chunkSize : Nat)
    (hc : 0 < chunkSize) :
    (splitArray arr chunkSize).flatten = arr ∧
    (∀ ch ∈ (splitArray arr chunkSize).dropLast, ch.length = chunkSize) ∧
    (∀ ch ∈ splitArray arr chunkSize, 1 ≤ ch.length ∧ ch.length ≤ chunkSize) := by
  refine ⟨?_, (splitArrayLoop_sizes arr chunkSize hc arr.length 0).1,
    (splitArrayLoop_sizes arr chunkSize hc arr.length 0).2⟩
  have h := splitArrayLoop_flatten arr chunkSize hc arr.length 0 (by omega)
  simpa [splitArray] using h

/-- Witness for C3 at a concrete array and chunk size. -/
theorem c3_splitArray_chunking_witness :
    0 < 2 ∧
    ((splitArray ["a", "b", "c"] 2).flatten = ["a", "b", "c"] ∧
     (∀ ch ∈ (splitArray ["a", "b", "c"] 2).dropLast, ch.length = 2) ∧
     (∀ ch ∈ splitArray ["a", "b", "c"] 2, 1 ≤ ch.length ∧ ch.length ≤ 2)) :=
  ⟨by decide, c3_splitArray_chunking ["a", "b", "c"] 2 (by decide)⟩

/-- C4: with the default chunk size `MAX_ITEMS_PER_PAGE = 50` every
chunk produced by `splitArray` holds at most 50 ids, and the `get_ids`
request sent by `getProductIds` (no active search) carries
`limit = 50` and `offset = currentPage * 50`. -/
theorem c4_page_size (arr : List String) (ctx : SearchCtx) (s : AppState)
    (fetch : RequestBody → FetchResponse String) :
    (∀ ch ∈ splitArray arr MAX_ITEMS_PER_PAGE, ch.length ≤ 50) ∧
    (ctx.searchValue = "" →
      (getProductIds ctx s fetch).2 =
        [getIdsBody (s.currentPage * MAX_ITEMS_PER_PAGE) MAX_ITEMS_PER_PAGE]) ∧
    (∀ offset limit, List.lookup "params" (getIdsBody offset limit) =
      some (.obj [("offset", .num (.int offset)), ("limit", .num (.int limit))])) ∧
    MAX_ITEMS_PER_PAGE = 50 := by
  refine ⟨?_, ?_, ?_, rfl⟩
  · intro ch hch
    have := (splitArrayLoop_sizes arr MAX_ITEMS_PER_PAGE (by decide) arr.length 0).2
      ch hch
    exact this.2
  · intro hsv
    simp [getProductIds, hsv]
  · intro offset limit
    rfl

/-- Witness for C4 at a concrete page state. -/
theorem c4_page_size_witness :
    (∀ ch ∈ splitArray ["a", "b", "c"] MAX_ITEMS_PER_PAGE, ch.length ≤ 50) ∧
    ((getProductIds ⟨"", "product"⟩ initialState (fun _ => ⟨[]⟩)).2 =
      [getIdsBody (initialState.currentPage * MAX_ITEMS_PER_PAGE) MAX_ITEMS_PER_PAGE]) := by
  obtain ⟨h1, h2, _, _⟩ :=
    c4_page_size ["a", "b", "c"] ⟨"", "product"⟩ initialState (fun _ => ⟨[]⟩)
  exact ⟨h1, h2 rfl⟩

/-- C5: the stored product list is the raw `get_items` result
deduplicated by `id` — it is a sublist of the raw result (relative
order preserved, every kept product comes from the result), its ids
are pairwise distinct, each kept product is the first product of the
raw result bearing its id, and every id of the raw result survives;
moreover the id list sent in the `get_items` request is the
`Set`-deduplicated `productIds`, which is duplicate-free. -/
theorem c5_products_deduplicated (s : AppState)
    (fetch : RequestBody → FetchResponse Product) (hne : s.productIds ≠ []) :
    (productIdsEffect s fetch).1.products =
      dedupProducts [] (fetch (getItemsBody (jsSetDedup [] s.productIds))).result ∧
    (∀ raw : List Product,
      List.Sublist (dedupProducts [] raw) raw ∧
      ((dedupProducts [] raw).map Product.id).Nodup ∧
      (∀ q ∈ dedupProducts [] raw, raw.find? (fun p => p.id == q.id) = some q) ∧
      (∀ p ∈ raw, ∃ q ∈ dedupProducts [] raw, q.id = p.id)) ∧
    (productIdsEffect s fetch).2 = [getItemsBody (jsSetDedup [] s.productIds)] ∧
    (jsSetDedup [] s.productIds).Nodup := by
  have hlen : ¬ s.productIds.length = 0 := by simpa using hne
  refine ⟨?_, ?_, ?_, jsSetDedup_nodup [] s.productIds⟩
  · simp [productIdsEffect, hlen]
  · intro raw
    exact ⟨dedupProducts_sublist [] raw, dedupProducts_ids_nodup [] raw,
      dedupProducts_find [] raw,
      fun p hp => dedupProducts_covers [] raw p hp (by simp)⟩
  · simp [productIdsEffect, hlen]

/-- Witness for C5 at a concrete state and fetch result with duplicate
ids. -/
theorem c5_products_deduplicated_witness :
    (productIdsEffect { initialState with productIds := ["1", "1", "2"] }
      (fun _ => ⟨[⟨"1", "b", 5, "p"⟩, ⟨"1", "b2", 6, "q"⟩, ⟨"2", "c", 7, "r"⟩]⟩)).1.products =
      dedupProducts []
        ((fun (_ : RequestBody) =>
          (⟨[⟨"1", "b", 5, "p"⟩, ⟨"1", "b2", 6, "q"⟩, ⟨"2", "c", 7, "r"⟩]⟩ :
            FetchResponse Product))
          (getItemsBody (jsSetDedup [] ["1", "1", "2"]))).result ∧
    (jsSetDedup [] ["1", "1", "2"]).Nodup := by
  have h := c5_products_deduplicated
    { initialState with productIds := ["1", "1", "2"] }
    (fun _ => ⟨[⟨"1", "b", 5, "p"⟩, ⟨"1", "b2", 6, "q"⟩, ⟨"2", "c", 7, "r"⟩]⟩)
    (by decide)
  exact ⟨h.1, h.2.2.2⟩

/-- C8: when the current id page is empty, the `productIds` effect
makes no network request and just resets the state: `products := []`,
`isLastPage := true`, `isLoading := false`. -/
theorem c8_empty_page_no_fetch (s : AppState)
    (fetch : RequestBody → FetchResponse Product) (h : s.productIds = []) :
    productIdsEffect s fetch =
      ({ s with products := [], isLastPage := true, isLoading := false }, []) := by
  simp [productIdsEffect, h]

/-- Witness for C8 on the initial state (whose id page is empty). -/
theorem c8_empty_page_no_fetch_witness :
    productIdsEffect initialState (fun _ => ⟨[]⟩) =
      ({ initialState with products := [], isLastPage := true, isLoading := false },
        []) :=
  c8_empty_page_no_fetch initialState (fun _ => ⟨[]⟩) rfl

/-- C9: after a `get_items` fetch (non-empty id page), `isLastPage` is
`true` exactly when the raw, pre-deduplication result holds fewer than
`MAX_ITEMS_PER_PAGE = 50` items, the effect ends with
`isLoading = false`, and the next-page button's `disabled` flag then
coincides with `isLastPage`. -/
theorem c9_isLastPage_iff (s : AppState)
    (fetch : RequestBody → FetchResponse Product) (hne : s.productIds ≠ []) :
    ((productIdsEffect s fetch).1.isLastPage = true ↔
      (fetch (getItemsBody (jsSetDedup [] s.productIds))).result.length <
        MAX_ITEMS_PER_PAGE) ∧
    (productIdsEffect s fetch).1.isLoading = false ∧
    nextPageDisabled (productIdsEffect s fetch).1 =
      (productIdsEffect s fetch).1.isLastPage := by
  have hlen : ¬ s.productIds.length = 0 := by simpa using hne
  refine ⟨?_, ?_, ?_⟩
  · simp [productIdsEffect, hlen]
  · simp [productIdsEffect, hlen]
  · simp [nextPageDisabled, productIdsEffect, hlen]

/-- Witness for C9 at a concrete state and a 1-item (< 50) result. -/
theorem c9_isLastPage_iff_witness :
    ((productIdsEffect { initialState with productIds := ["1"] }
        (fun _ => ⟨[⟨"1", "b", 5, "p"⟩]⟩)).1.isLastPage = true ↔
      ((fun (_ : RequestBody) => (⟨[⟨"1", "b", 5, "p"⟩]⟩ : FetchResponse Product))
          (getItemsBody (jsSetDedup [] ["1"]))).result.length < MAX_ITEMS_PER_PAGE) ∧
    (productIdsEffect { initialState with productIds := ["1"] }
        (fun _ => ⟨[⟨"1", "b", 5, "p"⟩]⟩)).1.isLoading = false :=
  ⟨(c9_isLastPage_iff { initialState with productIds := ["1"] }
      (fun _ => ⟨[⟨"1", "b", 5, "p"⟩]⟩) (by decide)).1,
   (c9_isLastPage_iff { initialState with productIds := ["1"] }
      (fun _ => ⟨[⟨"1", "b", 5, "p"⟩]⟩) (by decide)).2.1⟩

/-- C10: with an active search, the `filter` request sends
`Number.parseInt(searchValue)` when the selected field is `price` and
the raw search string under the field's name otherwise; `parseInt`
truncates the fractional part of a (possibly signed) decimal literal
and yields `NaN` when no digits can be read. -/
theorem c10_filter_request_value (ctx : SearchCtx) (s : AppState)
    (fetch : RequestBody → FetchResponse String)
    (hsv : ctx.searchValue ≠ "") (hsearch : s.isSearch = true)
    (hf : ctx.filterField ≠ "") :
    (getProductIds ctx s fetch).2 =
      [filterBody ctx.filterField
        (if ctx.filterField = "price" then .num (parseInt ctx.searchValue)
         else .str ctx.searchValue)] ∧
    (∀ ds rest : List Char, ds ≠ [] → (∀ c ∈ ds, isDecDigit c = true) →
      parseInt (String.mk (ds ++ '.' :: rest)) = .int (digitsVal ds) ∧
      parseInt (String.mk ('-' :: (ds ++ '.' :: rest))) =
        .int (-(digitsVal ds : Int))) ∧
    (∀ t : String,
      (∀ c ∈ t.toList, isDecDigit c = false ∧ isJsWhitespace c = false ∧
        c ≠ '-' ∧ c ≠ '+') →
      parseInt t = .nan) := by
  refine ⟨?_, ?_, ?_⟩
  · simp [getProductIds, hsv, hsearch, hf]
  · intro ds rest hne hall
    exact ⟨parseIntChars_digits_dot ds rest hne hall,
      parseIntChars_neg_digits_dot ds rest hne hall⟩
  · intro t ht
    exact parseIntChars_nan t.toList ht

/-- Witness for C10 at a concrete search for `price = "12.5"`. -/
theorem c10_filter_request_value_witness :
    (getProductIds ⟨"12.5", "price"⟩ { initialState with isSearch := true }
        (fun _ => ⟨[]⟩)).2 =
      [filterBody "price"
        (if "price" = "price" then .num (parseInt "12.5") else .str "12.5")] ∧
    parseInt (String.mk (['1', '2'] ++ '.' :: ['5'])) = .int (digitsVal ['1', '2']) := by
  have h := c10_filter_request_value ⟨"12.5", "price"⟩
    { initialState with isSearch := true } (fun _ => ⟨[]⟩)
    (by decide) rfl (by decide)
  exact ⟨h.1, (h.2.1 ['1', '2'] ['5'] (by decide) (by decide)).1⟩

/-- C6: every HTTP request the app sends goes through `fetchData` and
is a `POST` to the fixed endpoint with the pending body, and every
request body built by the component's effects carries an `action`
field equal to `get_fields`, `get_ids`, `get_items` or `filter`. -/
theorem c6_requests_post_fixed_endpoint {α : Type} (loadDate : JsDate)
    (body : RequestBody) (attempts : Nat → AttemptResult α) (rc : Nat)
    (s s' : AppState) (ctx : SearchCtx)
    (fetchS : RequestBody → FetchResponse String)
    (fetchP : RequestBody → FetchResponse Product) :
    (∀ req ∈ (fetchData loadDate body attempts rc).2,
      req.method = "POST" ∧ req.url = "https://api.valantis.store:41000/" ∧
      req.body = body) ∧
    (∀ b ∈ (fieldsEffect s fetchS).2 ++ (productIdsEffect s' fetchP).2 ++
        (getProductIds ctx s fetchS).2,
      ∃ a, bodyAction b = some (.str a) ∧
        (a = "get_fields" ∨ a = "get_ids" ∨ a = "get_items" ∨ a = "filter")) := by
  constructor
  · intro req hreq
    have := fetchData_sends loadDate body attempts (MAX_CONNECTIONS_RETRY + 1) rc
      (Nat.sub_le _ _) req hreq
    subst this
    exact ⟨rfl, rfl, rfl⟩
  · intro b hb
    rcases List.mem_append.mp hb with hb | hb
    · rcases List.mem_append.mp hb with hb | hb
      · simp only [fieldsEffect, List.mem_singleton] at hb
        subst hb
        exact ⟨"get_fields", rfl, Or.inl rfl⟩
      · by_cases h : s'.productIds.length = 0
        · simp [productIdsEffect, h] at hb
        · simp only [productIdsEffect, if_neg h, List.mem_singleton] at hb
          subst hb
          exact ⟨"get_items", rfl, Or.inr (Or.inr (Or.inl rfl))⟩
    · by_cases hsv : ctx.searchValue = ""
      · simp only [getProductIds, if_neg (by simp [hsv] : ¬ ctx.searchValue ≠ ""),
          List.mem_singleton] at hb
        subst hb
        exact ⟨"get_ids", rfl, Or.inr (Or.inl rfl)⟩
      · by_cases hsearch : s.isSearch
        · by_cases hf : ctx.filterField = ""
          · simp [getProductIds, hsv, hsearch, hf] at hb
          · simp only [getProductIds, if_pos (by simp [hsv] : ctx.searchValue ≠ "")] at hb
            simp only [hsearch, if_pos, if_neg hf, List.mem_singleton] at hb
            rw [hb]
            exact ⟨"filter", rfl, Or.inr (Or.inr (Or.inr rfl))⟩
        · simp [getProductIds, hsv, hsearch] at hb

/-- Witness for C6: the mount `get_fields` body, as emitted by the
effects at a concrete state, carries one of the four actions. -/
theorem c6_requests_post_fixed_endpoint_witness :
    ∃ a, bodyAction getFieldsBody = some (.str a) ∧
      (a = "get_fields" ∨ a = "get_ids" ∨ a = "get_items" ∨ a = "filter") :=
  (c6_requests_post_fixed_endpoint ⟨2024, 1, 1⟩ getFieldsBody
      (fun _ => (AttemptResult.failure : AttemptResult String)) 0
      initialState initialState ⟨"", "product"⟩ (fun _ => ⟨[]⟩) (fun _ => ⟨[]⟩)).2
    getFieldsBody
    (List.mem_append.mpr (Or.inl (List.mem_append.mpr (Or.inl
      (List.mem_singleton.mpr rfl)))))

/-- C7: failures are never surfaced as errors.  When the `get_items`
fetch ultimately fails (every attempt fails), the sentinel propagates:
the stored product list becomes empty, loading ends, and the main
branch renders the "Товаров не найдено" message.  When the id-level
fetch (`get_ids` or `filter`) ultimately fails, the id page itself
becomes empty, which the `productIds` effect turns into the same empty
list and message.  The render branch is total over progress, message
and table: there is no error view at all. -/
theorem c7_failures_render_no_items (loadDate : JsDate) (ctx : SearchCtx)
    (s s1 : AppState)
    (attemptsS : RequestBody → Nat → AttemptResult String)
    (attemptsP : RequestBody → Nat → AttemptResult Product) :
    ((∀ b k, attemptsP b k = .failure) →
      (productIdsEffect s1
          (fun b => (fetchData loadDate b (attemptsP b) 0).1)).1.products = [] ∧
      (productIdsEffect s1
          (fun b => (fetchData loadDate b (attemptsP b) 0).1)).1.isLoading = false ∧
      renderMain
        (productIdsEffect s1
          (fun b => (fetchData loadDate b (attemptsP b) 0).1)).1.isLoading
        (productIdsEffect s1
          (fun b => (fetchData loadDate b (attemptsP b) 0).1)).1.products =
        .message "Товаров не найдено") ∧
    ((∀ b k, attemptsS b k = .failure) →
      (ctx.searchValue = "" ∨ (s.isSearch = true ∧ ctx.filterField ≠ "")) →
      (getProductIds ctx s
          (fun b => (fetchData loadDate b (attemptsS b) 0).1)).1.productIds = []) ∧
    (∀ (loading : Bool) (ps : List Product),
      renderMain loading ps = .progress ∨
      renderMain loading ps = .message "Товаров не найдено" ∨
      renderMain loading ps = .table ps) := by
  refine ⟨?_, ?_, ?_⟩
  · intro hP
    have hfetch : ∀ b, (fetchData loadDate b (attemptsP b) 0).1 = ⟨[]⟩ := by
      intro b
      rw [fetchData_all_fail loadDate b (attemptsP b) (MAX_CONNECTIONS_RETRY + 1) 0
        (by decide) (by decide) (fun k _ _ => hP b k)]
    by_cases h : s1.productIds.length = 0
    · refine ⟨by simp [productIdsEffect, h], by simp [productIdsEffect, h], ?_⟩
      simp [productIdsEffect, h, renderMain]
    · refine ⟨by simp [productIdsEffect, h, hfetch, dedupProducts],
        by simp [productIdsEffect, h], ?_⟩
      simp [productIdsEffect, h, hfetch, dedupProducts, renderMain]
  · intro hS hok
    have hfetch : ∀ b, (fetchData loadDate b (attemptsS b) 0).1 = ⟨[]⟩ := by
      intro b
      rw [fetchData_all_fail loadDate b (attemptsS b) (MAX_CONNECTIONS_RETRY + 1) 0
        (by decide) (by decide) (fun k _ _ => hS b k)]
    by_cases hsv : ctx.searchValue = ""
    · simp [getProductIds, hsv, hfetch]
    · rcases hok with hok | ⟨hsearch, hf⟩
      · exact absurd hok hsv
      · simp [getProductIds, hsv, hsearch, hf, hfetch, splitArray, splitArrayLoop]
  · intro loading ps
    by_cases hl : loading
    · subst hl; exact Or.inl rfl
    · simp only [Bool.not_eq_true] at hl
      subst hl
      by_cases hp : ps.length = 0
      · exact Or.inr (Or.inl (by simp [renderMain, hp]))
      · exact Or.inr (Or.inr (by simp [renderMain, hp]))

/-- Witness for C7 at the initial state with every attempt failing. -/
theorem c7_failures_render_no_items_witness :
    renderMain
      (productIdsEffect { initialState with productIds := ["1"] }
        (fun b => (fetchData ⟨2024, 1, 1⟩ b (fun _ => AttemptResult.failure) 0).1)).1.isLoading
      (productIdsEffect { initialState with productIds := ["1"] }
        (fun b => (fetchData ⟨2024, 1, 1⟩ b (fun _ => AttemptResult.failure) 0).1)).1.products =
      .message "Товаров не найдено" :=
  ((c7_failures_render_no_items ⟨2024, 1, 1⟩ ⟨"", "product"⟩ initialState
      { initialState with productIds := ["1"] }
      (fun _ _ => .failure) (fun _ _ => .failure)).1
    (fun _ _ => rfl)).2.2

/-- C2 counterexample: `apiKey` is computed once at module load
(App.tsx line 30) and `fetchData` reuses it for every request, so two
requests of one session sent on different UTC days (load on
2024-01-01 UTC, a request that day and another on 2024-01-02 UTC)
carry the *same* `X-Auth` value — refuting the claim that requests
made on different UTC days carry different header values. -/
theorem c2_counterexample_same_header_across_days :
    xAuthSent ⟨2024, 0, 1⟩ ⟨2024, 0, 1⟩ = xAuthSent ⟨2024, 0, 1⟩ ⟨2024, 0, 2⟩ ∧
    (⟨2024, 0, 1⟩ : JsDate) ≠ ⟨2024, 0, 2⟩ :=
  ⟨rfl, by decide⟩

/-- C2 (amended): the `X-Auth` value sent with every request is the
MD5 hash of `"Valantis_"` concatenated with the *load-time* UTC date
formatted `YYYYMMDD`; it is computed once per page load, so every
request of a session carries that same value whatever day it is sent,
and it rotates only across loads: sessions loaded on different UTC
days hash distinct input strings (shown for arbitrary valid dates) and
produce different header values (shown for consecutive concrete
days). -/
theorem c2_api_key_daily_hash (loadDate requestDate : JsDate) (body : RequestBody)
    (d1 d2 : JsDate) (h1m : d1.utcMonth ≤ 11) (h1d : d1.utcDate ≤ 31)
    (h2m : d2.utcMonth ≤ 11) (h2d : d2.utcDate ≤ 31) (hne : d1 ≠ d2) :
    xAuthSent loadDate requestDate = md5hex ("Valantis_" ++ formatDate loadDate) ∧
    (buildRequest loadDate body).headers =
      [("Content-Type", "application/json"),
       ("X-Auth", md5hex ("Valantis_" ++ formatDate loadDate))] ∧
    "Valantis_" ++ formatDate d1 ≠ "Valantis_" ++ formatDate d2 ∧
    apiKey ⟨2024, 0, 1⟩ ≠ apiKey ⟨2024, 0, 2⟩ := by
  refine ⟨rfl, rfl, ?_, by decide⟩
  intro h
  apply hne
  apply formatDate_inj d1 d2 h1m h1d h2m h2d
  have hd := congrArg String.data h
  rw [String.data_append, String.data_append] at hd
  exact String.ext (List.append_cancel_left hd)

/-- Witness for C2 (amended) at load date 2024-01-01 UTC and a request
sent on 2024-01-02 UTC. -/
theorem c2_api_key_daily_hash_witness :
    (⟨2024, 0, 1⟩ : JsDate) ≠ ⟨2024, 0, 2⟩ ∧
    xAuthSent ⟨2024, 0, 1⟩ ⟨2024, 0, 2⟩ =
      md5hex ("Valantis_" ++ formatDate ⟨2024, 0, 1⟩) ∧
    "Valantis_" ++ formatDate ⟨2024, 0, 1⟩ ≠
      "Valantis_" ++ formatDate ⟨2024, 0, 2⟩ := by
  have h := c2_api_key_daily_hash ⟨2024, 0, 1⟩ ⟨2024, 0, 2⟩ getFieldsBody
    ⟨2024, 0, 1⟩ ⟨2024, 0, 2⟩ (by decide) (by decide) (by decide) (by decide)
    (by decide)
  exact ⟨by decide, h.1, h.2.2.1⟩
